import Mathlib

/-!
Verification of the open-post mutation protocol of `websockets/post_updates.go`
(the real-time posting core).  The open post's body is a UTF-8 byte buffer
(`[]byte` in the source); its length is tracked in runes.  We model bytes as
`Nat` (values < 256) and runes as `Char`, with an executable model of Go's
UTF-8 encoding (`string(char)`, `[]rune(string)`, `utf8.DecodeLastRune`,
`utf8.RuneLen`).
-/

namespace Shamichan

/-- Go `utf8.RuneError` (U+FFFD), produced when decoding invalid bytes. -/
def runeErrorChar : Char := '�'

/-- UTF-8 encoding of one rune, as Go's `string(char)` produces for a valid
Unicode scalar value (Lean's `Char` is always a valid scalar). -/
def encodeChar (c : Char) : List Nat :=
  let n := c.toNat
  if n < 0x80 then [n]
  else if n < 0x800 then [0xC0 + n / 0x40, 0x80 + n % 0x40]
  else if n < 0x10000 then
    [0xE0 + n / 0x1000, 0x80 + n / 0x40 % 0x40, 0x80 + n % 0x40]
  else
    [0xF0 + n / 0x40000, 0x80 + n / 0x1000 % 0x40, 0x80 + n / 0x40 % 0x40,
      0x80 + n % 0x40]

/-- UTF-8 encoding of a rune sequence (Go `[]byte(string(runes))`). -/
def encodeList : List Char → List Nat
  | [] => []
  | c :: cs => encodeChar c ++ encodeList cs

/-- Whether a byte is a UTF-8 continuation byte (`b & 0xC0 == 0x80`). -/
def contByte (b : Nat) : Bool := decide (0x80 ≤ b ∧ b < 0xC0)

/-- Go `utf8.RuneStart`: a byte that does not have the continuation form. -/
def runeStart (b : Nat) : Bool := ! contByte b

/-- Decode the first rune of a byte list, as Go's `utf8.DecodeRune`:
returns the rune and the number of bytes consumed; invalid input yields
`(RuneError, 1)` (or size 0 on the empty list).  Validity includes the
overlong-encoding and surrogate checks of the Go implementation. -/
def decodeOne : List Nat → Char × Nat
  | [] => (runeErrorChar, 0)
  | b0 :: rest =>
    if b0 < 0x80 then (Char.ofNat b0, 1)
    else if b0 < 0xC0 then (runeErrorChar, 1)
    else if b0 < 0xE0 then
      match rest with
      | b1 :: _ =>
        let m := (b0 - 0xC0) * 0x40 + (b1 - 0x80)
        if contByte b1 ∧ 0x80 ≤ m then (Char.ofNat m, 2)
        else (runeErrorChar, 1)
      | [] => (runeErrorChar, 1)
    else if b0 < 0xF0 then
      match rest with
      | b1 :: b2 :: _ =>
        let m := (b0 - 0xE0) * 0x1000 + (b1 - 0x80) * 0x40 + (b2 - 0x80)
        if contByte b1 ∧ contByte b2 ∧ 0x800 ≤ m ∧ ¬ (0xD800 ≤ m ∧ m < 0xE000)
        then (Char.ofNat m, 3)
        else (runeErrorChar, 1)
      | _ => (runeErrorChar, 1)
    else
      match rest with
      | b1 :: b2 :: b3 :: _ =>
        let m := (b0 - 0xF0) * 0x40000 + (b1 - 0x80) * 0x1000 +
          (b2 - 0x80) * 0x40 + (b3 - 0x80)
        if contByte b1 ∧ contByte b2 ∧ contByte b3 ∧ 0x10000 ≤ m ∧ m < 0x110000
        then (Char.ofNat m, 4)
        else (runeErrorChar, 1)
      | _ => (runeErrorChar, 1)

/-- Fuel-driven repeated decoding; `decodeList` supplies fuel `l.length`. -/
def decodeListAux : Nat → List Nat → List Char
  | 0, _ => []
  | _, [] => []
  | fuel + 1, l@(_ :: _) =>
    let p := decodeOne l
    p.1 :: decodeListAux fuel (l.drop (max p.2 1))

/-- Go's `[]rune(string(bytes))`: decode runes left to right, one
`RuneError` per invalid byte. -/
def decodeList (l : List Nat) : List Char := decodeListAux l.length l

/-- Go `utf8.RuneLen` of a valid scalar (equals `(encodeChar c).length`). -/
def utf8Len (c : Char) : Nat :=
  let n := c.toNat
  if n < 0x80 then 1 else if n < 0x800 then 2 else if n < 0x10000 then 3 else 4

/-- Scan a reversed byte list for the first rune-start byte, looking at most
`fuel` bytes; returns its 1-based distance from the end. -/
def findStart : List Nat → Nat → Option Nat
  | _, 0 => none
  | [], _ => none
  | b :: bs, fuel + 1 =>
    if runeStart b then some 1 else (findStart bs fuel).map (· + 1)

/-- Go `utf8.DecodeLastRune`: decode the final rune of a byte list.  Empty
input yields size 0; if no start byte occurs within the last 4 bytes, or the
decoded size does not span exactly to the end, yields `(RuneError, 1)`. -/
def decodeLast (l : List Nat) : Char × Nat :=
  match l.reverse with
  | [] => (runeErrorChar, 0)
  | b :: bs =>
    if b < 0x80 then (Char.ofNat b, 1)
    else
      match findStart (b :: bs) 4 with
      | none => (runeErrorChar, 1)
      | some k =>
        let p := decodeOne (l.drop (l.length - k))
        if p.2 = k then p else (runeErrorChar, 1)

/-! ## Data model

`openPost` mirrors the transient open-post state of the source's `Client`
(spec §3 "OpenPost"): id, owning thread (`op`), board, the UTF-8 byte buffer
of the body, the length in runes (a Go `int`), the line count (a Go `int`)
and the image-spoiler flag. -/

structure openPost where
  id : Nat := 0
  op : Nat := 0
  board : String := ""
  body : List Nat := []
  len : Int := 0
  lines : Int := 0
  isSpoilered : Bool := false
deriving Repr, DecidableEq

/-- The per-client state touched by the PostWriter operations: the open post
and the client's spam score (`db.IncrementSpamScore` accumulates it). -/
structure ClientState where
  post : openPost := {}
  spamScore : Nat := 0
deriving Repr, DecidableEq

/-- Configuration constants consumed by the operations:
`common.MaxLenBody`, `common.MaxLinesBody`, `config.Get().CharScore` and
`config.Get().ImageScore`.  Their numeric values live outside `src/`, so the
model is parametric in them. -/
structure Cfg where
  maxLenBody : Nat
  maxLinesBody : Nat
  charScore : Nat
  imageScore : Nat
deriving Repr, DecidableEq

/-- Errors returned by the PostWriter operations (the `err*` values and
`common.Err*` of the source).  `hasImageErr` models `errHasImage`, which the
source declares but never returns. -/
inductive WsErr where
  | noPostOpen
  | bodyTooLong
  | containsNull
  | tooManyLines
  | notPrintable
  | invalidSpliceCoords
  | spliceNOOP
  | spliceTooLong
  | emptyPost
  | textOnly
  | noImage
  | hasImageErr
deriving Repr, DecidableEq

/-- Messages broadcast on the thread's update feed. -/
inductive Msg where
  | append (id : Nat) (ch : Char)
  | backspaceMsg (id : Nat)
  | splice (id : Nat) (start : Nat) (len : Nat) (text : List Char)
  | insertImageMsg (id : Nat) (spoiler : Bool)
  | spoilerMsg (id : Nat)
  | stoleFrom (id : Nat)
  | stoleTo (id : Nat)
deriving Repr, DecidableEq

/-- Outcome of one operation: the error (if any), the client state after the
call, and the feed messages broadcast by the call. -/
structure OpOut where
  err : Option WsErr := none
  st : ClientState
  msgs : List Msg := []
deriving Repr, DecidableEq

/-- Modelled from the spec: `Client.hasPost` is not under `src/`.  Spec §4.5:
"All PostWriter operations require that the Client has an OpenPost;
otherwise they fail with `no_post_open`" — so with no open post (spec §3
invariant 2; `closePost` in the source tests `c.post.id == 0` for this)
`hasPost` reports `false` together with the `no_post_open` error, which the
callers' `err != nil` branches return.  The callers' separate `has == false`
branches then concern other conditions outside this model. -/
def hasPost (c : ClientState) : Bool × Option WsErr :=
  if c.post.id = 0 then (false, some WsErr.noPostOpen) else (true, none)

/-- Modelled from the spec: `parser.IsPrintable` is not under `src/`.  Spec
§4.3: "rejects NUL, control characters outside tab/newline"; newline is
accepted only when `allowNewline` is set. -/
def isPrintable (c : Char) (allowNewline : Bool) : Bool :=
  let n := c.toNat
  !(n == 0) && !(n < 32 && !(n == 9 || (n == 10 && allowNewline))) && !(n == 127)

/-- Modelled from the spec: `parser.IsPrintableRunes` applies `isPrintable`
to every rune. -/
def isPrintableRunes (text : List Char) (allowNewline : Bool) : Bool :=
  text.all (fun c => isPrintable c allowNewline)

/-- Modelled from the spec: `openPost.countLines` is not under `src/`.  Spec
§8 invariant 2: `lines == count('\n' in body)`; on the UTF-8 byte buffer the
newline runes are exactly the `0x0A` bytes. -/
def countLines (body : List Nat) : Nat := body.count 10

/-- `Client.updateBody`: broadcast `msg` via the feed (and mirror the body),
add `n * CharScore` to the spam score, and persist the open body. -/
def updateBody (cfg : Cfg) (c : ClientState) (msg : Msg) (n : Nat) : OpOut :=
  { st := { c with spamScore := c.spamScore + n * cfg.charScore }
    msgs := [msg] }

/-! ## The PostWriter operations -/

/-- `Client.appendRune`: append one rune to the open post's body.  The input
rune is the decoded payload of the message (JSON decoding is outside the
model).  Mirrors the source's order of checks exactly; note that the line
counter is incremented before the `MaxLinesBody` check. -/
def appendRune (cfg : Cfg) (c : ClientState) (char : Char) : OpOut :=
  let h := hasPost c
  if h.2.isSome then { err := h.2, st := c }
  else if ! h.1 then { st := c }
  else if c.post.len + 1 > (cfg.maxLenBody : Int) then
    { err := some .bodyTooLong, st := c }
  else if char.toNat = 0 then { err := some .containsNull, st := c }
  else
    let c1 := if char = '\n'
      then { c with post := { c.post with lines := c.post.lines + 1 } }
      else c
    if char = '\n' ∧ c1.post.lines > (cfg.maxLinesBody : Int) then
      { err := some .tooManyLines, st := c1 }
    else if ! isPrintable char true then { err := some .notPrintable, st := c1 }
    else
      let msg := Msg.append c.post.id char
      let c2 := { c1 with post := { c1.post with
        body := c1.post.body ++ encodeChar char
        len := c1.post.len + 1 } }
      updateBody cfg c2 msg 1

/-- `Client.backspace`: remove the last rune of the open post's body using
`utf8.DecodeLastRune`. -/
def backspace (cfg : Cfg) (c : ClientState) : OpOut :=
  let h := hasPost c
  if h.2.isSome then { err := h.2, st := c }
  else if ! h.1 then { st := c }
  else if c.post.len = 0 then { err := some .emptyPost, st := c }
  else
    let msg := Msg.backspaceMsg c.post.id
    let p := decodeLast c.post.body
    let c2 := { c with post := { c.post with
      body := c.post.body.take (c.post.body.length - p.2)
      lines := if p.1 = '\n' then c.post.lines - 1 else c.post.lines
      len := c.post.len - 1 } }
    updateBody cfg c2 msg 1

/-- A decoded splice request: rune coordinates plus the replacement runes. -/
structure SpliceReq where
  start : Nat
  len : Nat
  text : List Char
deriving Repr, DecidableEq

/-- The mutating tail of `Client.spliceText`, after all validation has
passed: reconstruct the buffer, trim on overflow, recount lines, and either
fail `too_many_lines` (with the mutation already applied) or broadcast. -/
def spliceMut (cfg : Cfg) (c : ClientState) (req : SpliceReq) : OpOut :=
  let old := decodeList c.post.body
  let tail0 := req.text ++ old.drop (req.start + req.len)
  let len1 : Int := c.post.len - req.len + req.text.length
  let exceeding : Int := len1 - cfg.maxLenBody
  let tail1 := if 0 < exceeding
    then tail0.take (tail0.length - exceeding.toNat) else tail0
  let resLen := if 0 < exceeding then (old.drop req.start).length else req.len
  let resText := if 0 < exceeding then tail1 else req.text
  let len2 := if 0 < exceeding then (cfg.maxLenBody : Int) else len1
  let msg := Msg.splice c.post.id req.start resLen resText
  let byteStartPos := ((old.take req.start).map utf8Len).sum
  let body1 := c.post.body.take byteStartPos ++ encodeList tail1
  let lines1 := countLines body1
  let c2 := { c with post := { c.post with
    body := body1
    len := len2
    lines := (lines1 : Int) } }
  if (lines1 : Int) > (cfg.maxLinesBody : Int) then
    { err := some .tooManyLines, st := c2 }
  else
    updateBody cfg c2 msg ((encodeList resText).length + 1)

/-- `Client.spliceText`: replace the rune range `[start, start+len)` of the
open post's body with `text`.  Mirrors the source exactly: printability is
checked before the coordinate validation; the rune length is updated, the
tail `text ++ old[start+len:]` is trimmed when the new length exceeds
`MaxLenBody` (adjusting the broadcast `len`/`text` fields), the byte offset
of `start` is the summed UTF-8 length of the runes before it, and the line
count is recounted after the mutation — so the `too_many_lines` error is
returned only after the body, `len` and `lines` fields were already
updated.  The spam increment counts the bytes of the broadcast text plus
one. -/
def spliceText (cfg : Cfg) (c : ClientState) (req : SpliceReq) : OpOut :=
  let h := hasPost c
  if h.2.isSome then { err := h.2, st := c }
  else if ! h.1 then { st := c }
  else if ! isPrintableRunes req.text true then
    { err := some .notPrintable, st := c }
  else if req.start > cfg.maxLenBody ∨ req.len > cfg.maxLenBody ∨
      ((req.start + req.len : Nat) : Int) > c.post.len then
    { err := some .invalidSpliceCoords, st := c }
  else if req.len = 0 ∧ req.text = [] then { err := some .spliceNOOP, st := c }
  else if req.text.length > cfg.maxLenBody then
    { err := some .spliceTooLong, st := c }
  else if req.text.any (fun r => r.toNat = 0) then
    { err := some .containsNull, st := c }
  else
    spliceMut cfg c req

/-- Environment of a `closePost` call: the answers of the external
collaborators the source consults (the `parser` package and the database),
which live outside `src/`.  `regFilter` is `parser.RegisterFilter`'s result,
`applied` is `some newBody` when `parser.ApplyFilters` rewrote the body,
`links` are the link target ids `parser.ParseBody` extracts, and
`transferredImage` is whether `db.TransferImage` moved an image. -/
structure CloseEnv where
  regFilter : Bool := false
  applied : Option (List Nat) := none
  links : List Nat := []
  transferredImage : Bool := false
deriving Repr, DecidableEq

/-- Result of a `closePost` call.  Besides the error, state and broadcast
messages it records the arguments of the `parser.ParseBody` invocation, when
one happened: the body bytes passed and the `final` flag. -/
structure CloseOut where
  err : Option WsErr := none
  st : ClientState
  msgs : List Msg := []
  parseCall : Option (List Nat × Bool) := none
deriving Repr, DecidableEq

/-- Whether `pat` occurs as a contiguous subsequence of `l`
(Go `bytes.Contains`). -/
def startsWithSeq : List Nat → List Nat → Bool
  | [], _ => true
  | _ :: _, [] => false
  | a :: as, b :: bs => a == b && startsWithSeq as bs

/-- See `startsWithSeq`. -/
def containsSeq (pat : List Nat) : List Nat → Bool
  | [] => startsWithSeq pat []
  | l@(_ :: rest) => startsWithSeq pat l || containsSeq pat rest

/-- The bytes of the literal `#steal`. -/
def stealBytes : List Nat := encodeList "#steal".data

/-- `Client.closePost`: close the open post.  With a non-empty body it runs
the board filters (broadcasting a full-range splice when they changed the
body), invokes `parser.ParseBody` on the resulting body — the source passes
`false` as the `final` argument — and, on board "a" with at least one link
and a body containing `#steal`, attempts to steal the image of the last
linked post (adding `ImageScore` to the spam score and broadcasting the two
stole-image messages when the transfer yields an image).  Finally the post is
persisted as closed and the open-post handle is cleared. -/
def closePost (cfg : Cfg) (c : ClientState) (env : CloseEnv) : CloseOut :=
  if c.post.id = 0 then { err := some .noPostOpen, st := c }
  else if c.post.len ≠ 0 then
    let filtered :=
      if env.regFilter then (c.post.body, ([] : List Msg))
      else
        match env.applied with
        | some b1 =>
          (b1, [Msg.splice c.post.id 0 c.post.body.length (decodeList b1)])
        | none => (c.post.body, [])
    let body1 := filtered.1
    let steal :=
      if c.post.board = "a" ∧ env.links ≠ [] ∧ containsSeq stealBytes body1 then
        if env.transferredImage then
          ([Msg.stoleFrom (env.links.getLastD 0), Msg.stoleTo c.post.id],
            cfg.imageScore)
        else ([], 0)
      else ([], 0)
    { st := { post := {}, spamScore := c.spamScore + steal.2 }
      msgs := filtered.2 ++ steal.1
      parseCall := some (body1, false) }
  else
    { st := { c with post := {} } }

/-- `Client.hasImage`: ask the Store whether the post has an image
(`db.HasImage`, outside `src/`, modelled by the `dbHas` argument).  When the
Store says there is none, the client-side `isSpoilered` flag is reset so a
reuploaded image can be spoilered again. -/
def hasImage (c : ClientState) (dbHas : Bool) : Bool × ClientState :=
  if ! dbHas then
    (dbHas, { c with post := { c.post with isSpoilered := false } })
  else (dbHas, c)

/-- A decoded image-insertion request (token and name only feed the external
database call; the spoiler flag is the part the core state depends on). -/
structure ImageRequest where
  spoiler : Bool
deriving Repr, DecidableEq

/-- `Client.insertImage`: attach a staged image to the open post.  The spam
score is incremented by `CharScore` unconditionally at entry ("so this can
not be spammed").  With no open post it fails `no_post_open`; when the Store
already holds an image for the post the call is a silent NOP ("can be caused
by network latency"); on a text-only board it fails; otherwise the image is
bound in the database and broadcast.  `dbHas` is the Store's answer
(`db.HasImage`) and `boardTextOnly` is `config.GetBoardConfigs(board)
.TextOnly`, both outside `src/`. -/
def insertImage (cfg : Cfg) (c : ClientState) (dbHas : Bool)
    (boardTextOnly : Bool) (req : ImageRequest) : OpOut :=
  let c0 := { c with spamScore := c.spamScore + cfg.charScore }
  let hp := hasPost c0
  if hp.2.isSome then { err := hp.2, st := c0 }
  else if ! hp.1 then { err := some .noPostOpen, st := c0 }
  else
    let h := hasImage c0 dbHas
    if h.1 then { st := h.2 }
    else if boardTextOnly then { err := some .textOnly, st := h.2 }
    else
      let c2 := { h.2 with post := { h.2.post with isSpoilered := req.spoiler } }
      { st := c2, msgs := [Msg.insertImageMsg c2.post.id req.spoiler] }

/-- `Client.spoilerImage`: spoiler the already-inserted image of the open
post.  Spam score is incremented by `CharScore` unconditionally at entry.
Fails `no_post_open` with no open post; fails when the Store has no image;
is a silent NOP when the client-side flag says the image is already
spoilered; otherwise updates the database and broadcasts `MessageSpoiler`. -/
def spoilerImage (cfg : Cfg) (c : ClientState) (dbHas : Bool) : OpOut :=
  let c0 := { c with spamScore := c.spamScore + cfg.charScore }
  let hp := hasPost c0
  if hp.2.isSome then { err := hp.2, st := c0 }
  else if ! hp.1 then { err := some .noPostOpen, st := c0 }
  else
    let h := hasImage c0 dbHas
    if ! h.1 then { err := some .noImage, st := h.2 }
    else if h.2.post.isSpoilered then { st := h.2 }
    else { st := h.2, msgs := [Msg.spoilerMsg h.2.post.id] }

/-! ## Sequences of body mutations -/

/-- One body-mutating writer operation (the scope of the §8 invariants). -/
inductive WOp where
  | app (c : Char)
  | back
  | spl (r : SpliceReq)
deriving Repr, DecidableEq

/-- Run one operation, keeping the full outcome. -/
def runOpE (cfg : Cfg) (st : ClientState) : WOp → OpOut
  | .app ch => appendRune cfg st ch
  | .back => backspace cfg st
  | .spl r => spliceText cfg st r

/-- Run a sequence of operations, keeping the state only (each message's
error — if any — is reported to the client; the connection stays open). -/
def runOps (cfg : Cfg) (st : ClientState) : List WOp → ClientState
  | [] => st
  | o :: os => runOps cfg (runOpE cfg st o).st os

/-- Whether every operation of the sequence succeeds when run in order. -/
def allOk (cfg : Cfg) (st : ClientState) : List WOp → Bool
  | [] => true
  | o :: os =>
    (runOpE cfg st o).err == none && allOk cfg (runOpE cfg st o).st os

/-! ## Validity of an open post -/

/-- Well-formedness of the byte/rune bookkeeping of an open post: the body
is the UTF-8 encoding of its rune sequence, `len` is the rune count, and no
rune is NUL. -/
def Wf (p : openPost) : Prop :=
  p.body = encodeList (decodeList p.body) ∧
  p.len = ((decodeList p.body).length : Int) ∧
  ∀ ch ∈ decodeList p.body, ch.toNat ≠ 0

/-- A valid open post (spec §3 invariants 1 and 6, §8 invariants 1 and 2):
well-formed bookkeeping, a line counter equal to the newline count, and both
counters within the limits. -/
def validPost (cfg : Cfg) (p : openPost) : Prop :=
  Wf p ∧ p.lines = (countLines p.body : Int) ∧
    p.len ≤ (cfg.maxLenBody : Int) ∧ p.lines ≤ (cfg.maxLinesBody : Int)

instance : DecidablePred Wf := fun p => by
  unfold Wf; infer_instance

instance (cfg : Cfg) : DecidablePred (validPost cfg) := fun p => by
  unfold validPost; infer_instance

/-! ## Concrete instances used for witnesses and counterexamples -/

/-- A configuration with roomy limits. -/
def cfgT : Cfg :=
  { maxLenBody := 2000, maxLinesBody := 100, charScore := 1, imageScore := 11 }

/-- A configuration with a 10-rune body cap, to exercise splice trimming. -/
def cfgS : Cfg :=
  { maxLenBody := 10, maxLinesBody := 100, charScore := 1, imageScore := 11 }

/-- A configuration with a 1-newline cap, to exercise the line limit. -/
def cfgL : Cfg :=
  { maxLenBody := 10, maxLinesBody := 1, charScore := 1, imageScore := 11 }

/-- A client with an open post whose body is the given string. -/
def mkOpen (s : String) : ClientState :=
  { post := { id := 1, op := 7, board := "a", body := encodeList s.data
              len := (s.data.length : Int)
              lines := (countLines (encodeList s.data) : Int) } }

/-- A client with no open post (`post.id = 0`). -/
def stNone : ClientState := {}

/-- A client with an open, empty post whose stale `isSpoilered` flag is still
set (its image was stolen). -/
def stStale : ClientState :=
  { post := { id := 1, op := 7, board := "a", isSpoilered := true } }

/-! ## UTF-8 round-trip lemmas -/

theorem encodeChar_length (c : Char) : (encodeChar c).length = utf8Len c := by
  simp only [encodeChar, utf8Len]
  split_ifs <;> rfl

theorem encodeList_append (a b : List Char) :
    encodeList (a ++ b) = encodeList a ++ encodeList b := by
  induction a with
  | nil => rfl
  | cons c cs ih => simp [encodeList, ih]

theorem encodeList_length (rs : List Char) :
    (encodeList rs).length = (rs.map utf8Len).sum := by
  induction rs with
  | nil => rfl
  | cons c cs ih => simp [encodeList, ih, encodeChar_length]

/-- The Unicode scalar-value range of a `Char`, at the `Nat` level. -/
theorem char_valid_nat (c : Char) :
    c.toNat < 0xD800 ∨ (0xDFFF < c.toNat ∧ c.toNat < 0x110000) := c.valid

theorem decodeOne_encodeChar (c : Char) (rest : List Nat) :
    decodeOne (encodeChar c ++ rest) = (c, utf8Len c) := by
  have hv := char_valid_nat c
  by_cases h1 : c.toNat < 0x80
  · have he : encodeChar c = [c.toNat] := by unfold encodeChar; simp [h1]
    have hu : utf8Len c = 1 := by unfold utf8Len; simp [h1]
    rw [he, hu]
    unfold decodeOne
    simp [h1, Char.ofNat_toNat]
  · by_cases h2 : c.toNat < 0x800
    · have he : encodeChar c = [0xC0 + c.toNat / 0x40, 0x80 + c.toNat % 0x40] := by
        unfold encodeChar; simp [h1, h2]
      have hu : utf8Len c = 2 := by unfold utf8Len; simp [h1, h2]
      rw [he, hu]
      unfold decodeOne
      simp only [List.cons_append, List.nil_append]
      rw [if_neg (by omega), if_neg (by omega), if_pos (by omega)]
      rw [if_pos ⟨by simp only [contByte, decide_eq_true_eq]; omega, by omega⟩]
      have hm : (0xC0 + c.toNat / 0x40 - 0xC0) * 0x40 +
          (0x80 + c.toNat % 0x40 - 0x80) = c.toNat := by omega
      rw [hm, Char.ofNat_toNat]
    · by_cases h3 : c.toNat < 0x10000
      · have he : encodeChar c = [0xE0 + c.toNat / 0x1000,
            0x80 + c.toNat / 0x40 % 0x40, 0x80 + c.toNat % 0x40] := by
          unfold encodeChar; simp [h1, h2, h3]
        have hu : utf8Len c = 3 := by unfold utf8Len; simp [h1, h2, h3]
        rw [he, hu]
        unfold decodeOne
        simp only [List.cons_append, List.nil_append]
        rw [if_neg (by omega), if_neg (by omega), if_neg (by omega),
          if_pos (by omega)]
        rw [if_pos ⟨by simp only [contByte, decide_eq_true_eq]; omega,
          by simp only [contByte, decide_eq_true_eq]; omega, by omega, by omega⟩]
        have hm : (0xE0 + c.toNat / 0x1000 - 0xE0) * 0x1000 +
            (0x80 + c.toNat / 0x40 % 0x40 - 0x80) * 0x40 +
            (0x80 + c.toNat % 0x40 - 0x80) = c.toNat := by omega
        rw [hm, Char.ofNat_toNat]
      · have he : encodeChar c = [0xF0 + c.toNat / 0x40000,
            0x80 + c.toNat / 0x1000 % 0x40, 0x80 + c.toNat / 0x40 % 0x40,
            0x80 + c.toNat % 0x40] := by
          unfold encodeChar; simp [h1, h2, h3]
        have hu : utf8Len c = 4 := by unfold utf8Len; simp [h1, h2, h3]
        rw [he, hu]
        unfold decodeOne
        simp only [List.cons_append, List.nil_append]
        rw [if_neg (by omega), if_neg (by omega), if_neg (by omega),
          if_neg (by omega)]
        rw [if_pos ⟨by simp only [contByte, decide_eq_true_eq]; omega,
          by simp only [contByte, decide_eq_true_eq]; omega,
          by simp only [contByte, decide_eq_true_eq]; omega, by omega, by omega⟩]
        have hm : (0xF0 + c.toNat / 0x40000 - 0xF0) * 0x40000 +
            (0x80 + c.toNat / 0x1000 % 0x40 - 0x80) * 0x1000 +
            (0x80 + c.toNat / 0x40 % 0x40 - 0x80) * 0x40 +
            (0x80 + c.toNat % 0x40 - 0x80) = c.toNat := by omega
        rw [hm, Char.ofNat_toNat]

theorem utf8Len_pos (c : Char) : 1 ≤ utf8Len c := by
  simp only [utf8Len]
  split_ifs <;> omega

theorem encodeChar_ne_nil (c : Char) : encodeChar c ≠ [] := by
  intro h
  have h2 := encodeChar_length c
  have h3 := utf8Len_pos c
  rw [h] at h2
  simp only [List.length_nil] at h2
  omega

theorem decodeListAux_encodeList (rs : List Char) (fuel : Nat)
    (h : (encodeList rs).length ≤ fuel) :
    decodeListAux fuel (encodeList rs) = rs := by
  induction rs generalizing fuel with
  | nil => cases fuel <;> rfl
  | cons c cs ih =>
    cases fuel with
    | zero =>
      exfalso
      have h1 := utf8Len_pos c
      have h2 := encodeChar_length c
      simp only [encodeList, List.length_append] at h
      omega
    | succ f =>
      obtain ⟨b, t, hbt⟩ := List.exists_cons_of_ne_nil
        (show encodeList (c :: cs) ≠ [] by
          simp only [encodeList]
          intro hx
          exact encodeChar_ne_nil c (List.append_eq_nil.mp hx).1)
      rw [hbt]
      show (decodeOne (b :: t)).1 ::
        decodeListAux f ((b :: t).drop (max (decodeOne (b :: t)).2 1)) = c :: cs
      rw [← hbt]
      show (decodeOne (encodeChar c ++ encodeList cs)).1 ::
        decodeListAux f ((encodeChar c ++ encodeList cs).drop
          (max (decodeOne (encodeChar c ++ encodeList cs)).2 1)) = c :: cs
      rw [decodeOne_encodeChar]
      have hmax : max (utf8Len c) 1 = utf8Len c :=
        Nat.max_eq_left (utf8Len_pos c)
      rw [hmax, ← encodeChar_length c, List.drop_left]
      congr 1
      apply ih
      have h2 := encodeChar_length c
      have h3 := utf8Len_pos c
      simp only [encodeList, List.length_append] at h
      omega

theorem decodeList_encodeList (rs : List Char) :
    decodeList (encodeList rs) = rs :=
  decodeListAux_encodeList rs _ le_rfl

theorem decodeLast_append (bs : List Nat) (c : Char) :
    decodeLast (bs ++ encodeChar c) = (c, utf8Len c) := by
  have hv := char_valid_nat c
  have hone := decodeOne_encodeChar c []
  rw [List.append_nil] at hone
  by_cases h1 : c.toNat < 0x80
  · have he : encodeChar c = [c.toNat] := by unfold encodeChar; simp [h1]
    have hu : utf8Len c = 1 := by unfold utf8Len; simp [h1]
    rw [hu]
    unfold decodeLast
    rw [List.reverse_append, he]
    simp only [List.reverse_cons, List.reverse_nil, List.nil_append,
      List.cons_append]
    rw [if_pos h1, Char.ofNat_toNat]
  · have hcont_last : contByte (0x80 + c.toNat % 0x40) = true := by
      simp only [contByte, decide_eq_true_eq]; omega
    by_cases h2 : c.toNat < 0x800
    · have he : encodeChar c = [0xC0 + c.toNat / 0x40, 0x80 + c.toNat % 0x40] := by
        unfold encodeChar; simp [h1, h2]
      have hu : utf8Len c = 2 := by unfold utf8Len; simp [h1, h2]
      have hone2 := hone
      rw [he, hu] at hone2
      have hfs : findStart ((0x80 + c.toNat % 0x40) ::
          (0xC0 + c.toNat / 0x40) :: bs.reverse) 4 = some 2 := by
        unfold findStart
        rw [if_neg (by simp [runeStart, hcont_last])]
        unfold findStart
        rw [if_pos (by simp only [runeStart, contByte, Bool.not_eq_true',
          decide_eq_false_iff_not]; omega)]
        rfl
      have hlen : (bs ++ [0xC0 + c.toNat / 0x40, 0x80 + c.toNat % 0x40]).length
          - 2 = bs.length := by simp
      rw [hu]
      unfold decodeLast
      rw [List.reverse_append, he]
      simp only [List.reverse_cons, List.reverse_nil, List.nil_append,
        List.cons_append]
      rw [if_neg (by omega), hfs]
      dsimp only
      rw [hlen, List.drop_left, hone2]
      simp
    · have hcont_mid : contByte (0x80 + c.toNat / 0x40 % 0x40) = true := by
        simp only [contByte, decide_eq_true_eq]; omega
      by_cases h3 : c.toNat < 0x10000
      · have he : encodeChar c = [0xE0 + c.toNat / 0x1000,
            0x80 + c.toNat / 0x40 % 0x40, 0x80 + c.toNat % 0x40] := by
          unfold encodeChar; simp [h1, h2, h3]
        have hu : utf8Len c = 3 := by unfold utf8Len; simp [h1, h2, h3]
        have hone2 := hone
        rw [he, hu] at hone2
        have hfs : findStart ((0x80 + c.toNat % 0x40) ::
            (0x80 + c.toNat / 0x40 % 0x40) ::
            (0xE0 + c.toNat / 0x1000) :: bs.reverse) 4 = some 3 := by
          unfold findStart
          rw [if_neg (by simp [runeStart, hcont_last])]
          unfold findStart
          rw [if_neg (by simp [runeStart, hcont_mid])]
          unfold findStart
          rw [if_pos (by simp only [runeStart, contByte, Bool.not_eq_true',
            decide_eq_false_iff_not]; omega)]
          rfl
        have hlen : (bs ++ [0xE0 + c.toNat / 0x1000,
            0x80 + c.toNat / 0x40 % 0x40, 0x80 + c.toNat % 0x40]).length
            - 3 = bs.length := by simp
        rw [hu]
        unfold decodeLast
        rw [List.reverse_append, he]
        simp only [List.reverse_cons, List.reverse_nil, List.nil_append,
          List.cons_append]
        rw [if_neg (by omega), hfs]
        dsimp only
        rw [hlen, List.drop_left, hone2]
        simp
      · have hcont_mid2 : contByte (0x80 + c.toNat / 0x1000 % 0x40) = true := by
          simp only [contByte, decide_eq_true_eq]; omega
        have he : encodeChar c = [0xF0 + c.toNat / 0x40000,
            0x80 + c.toNat / 0x1000 % 0x40, 0x80 + c.toNat / 0x40 % 0x40,
            0x80 + c.toNat % 0x40] := by
          unfold encodeChar; simp [h1, h2, h3]
        have hu : utf8Len c = 4 := by unfold utf8Len; simp [h1, h2, h3]
        have hone2 := hone
        rw [he, hu] at hone2
        have hfs : findStart ((0x80 + c.toNat % 0x40) ::
            (0x80 + c.toNat / 0x40 % 0x40) ::
            (0x80 + c.toNat / 0x1000 % 0x40) ::
            (0xF0 + c.toNat / 0x40000) :: bs.reverse) 4 = some 4 := by
          unfold findStart
          rw [if_neg (by simp [runeStart, hcont_last])]
          unfold findStart
          rw [if_neg (by simp [runeStart, hcont_mid])]
          unfold findStart
          rw [if_neg (by simp [runeStart, hcont_mid2])]
          unfold findStart
          rw [if_pos (by simp only [runeStart, contByte, Bool.not_eq_true',
            decide_eq_false_iff_not]; omega)]
          rfl
        have hlen : (bs ++ [0xF0 + c.toNat / 0x40000,
            0x80 + c.toNat / 0x1000 % 0x40, 0x80 + c.toNat / 0x40 % 0x40,
            0x80 + c.toNat % 0x40]).length - 4 = bs.length := by simp
        rw [hu]
        unfold decodeLast
        rw [List.reverse_append, he]
        simp only [List.reverse_cons, List.reverse_nil, List.nil_append,
          List.cons_append]
        rw [if_neg (by omega), hfs]
        dsimp only
        rw [hlen, List.drop_left, hone2]
        simp

theorem countLines_append (a b : List Nat) :
    countLines (a ++ b) = countLines a + countLines b := by
  simp [countLines, List.count_append]

theorem countLines_encodeChar (c : Char) :
    countLines (encodeChar c) = if c = '\n' then 1 else 0 := by
  by_cases hc : c = '\n'
  · subst hc; simp [countLines, encodeChar]
  · rw [if_neg hc]
    have h10 : c.toNat ≠ 10 := fun h =>
      hc (by rw [← Char.ofNat_toNat c, h])
    simp only [countLines, encodeChar]
    split_ifs with h1 h2 h3 <;>
      (apply List.count_eq_zero.mpr; intro hmem; simp at hmem; omega)

theorem countLines_encodeList (rs : List Char) :
    countLines (encodeList rs) = rs.count '\n' := by
  induction rs with
  | nil => rfl
  | cons c cs ih =>
    show countLines (encodeChar c ++ encodeList cs) = _
    rw [countLines_append, ih, countLines_encodeChar]
    by_cases hc : c = '\n'
    · subst hc; rw [if_pos rfl]
      simp [List.count_cons]
      omega
    · rw [if_neg hc]
      simp [List.count_cons, hc]

theorem take_encodeList (rs : List Char) (k : Nat) :
    (encodeList rs).take (((rs.take k).map utf8Len).sum) =
      encodeList (rs.take k) := by
  have h1 : encodeList rs = encodeList (rs.take k) ++ encodeList (rs.drop k) := by
    rw [← encodeList_append, List.take_append_drop]
  rw [show ((rs.take k).map utf8Len).sum = (encodeList (rs.take k)).length from
    (encodeList_length _).symm, h1]
  exact List.take_left _ _

theorem encodeList_singleton (c : Char) : encodeList [c] = encodeChar c := by
  simp [encodeList]

/-- `decodeLast` of an encoded non-empty rune list recovers the last rune. -/
theorem decodeLast_encodeList (rs : List Char) (h : rs ≠ []) :
    decodeLast (encodeList rs) = (rs.getLast h, utf8Len (rs.getLast h)) := by
  conv_lhs => rw [← List.dropLast_append_getLast h, encodeList_append,
    encodeList_singleton]
  exact decodeLast_append _ _

/-- Removing the encoded last rune's bytes leaves the encoded remainder. -/
theorem take_encodeList_dropLast (rs : List Char) (h : rs ≠ []) :
    (encodeList rs).take ((encodeList rs).length - utf8Len (rs.getLast h)) =
      encodeList rs.dropLast := by
  have hrs : encodeList rs =
      encodeList rs.dropLast ++ encodeChar (rs.getLast h) := by
    conv_lhs => rw [← List.dropLast_append_getLast h]
    rw [encodeList_append, encodeList_singleton]
  rw [hrs, List.length_append, encodeChar_length, Nat.add_sub_cancel]
  exact List.take_left _ _

/-! ## Case analyses of the operations

Each operation either leaves the client state untouched while reporting an
error (`no_post_open` included), fails after a partial mutation, or runs its
mutating tail; these lemmas enumerate the outcomes. -/

theorem appendRune_cases (cfg : Cfg) (st : ClientState) (ch : Char) :
    ((appendRune cfg st ch).st = st ∧ (appendRune cfg st ch).msgs = [] ∧
      (st.post.id = 0 ∨ (appendRune cfg st ch).err ≠ none)) ∨
    (ch = '\n' ∧ (appendRune cfg st ch).err = some WsErr.tooManyLines ∧
      (appendRune cfg st ch).st =
        { st with post := { st.post with lines := st.post.lines + 1 } } ∧
      (appendRune cfg st ch).msgs = []) ∨
    (st.post.id ≠ 0 ∧ ch.toNat ≠ 0 ∧ isPrintable ch true = true ∧
      st.post.len + 1 ≤ (cfg.maxLenBody : Int) ∧
      (ch = '\n' → st.post.lines + 1 ≤ (cfg.maxLinesBody : Int)) ∧
      appendRune cfg st ch =
        { err := none
          st := { st with
            post := { st.post with
              body := st.post.body ++ encodeChar ch
              len := st.post.len + 1
              lines := st.post.lines + (if ch = '\n' then 1 else 0) }
            spamScore := st.spamScore + 1 * cfg.charScore }
          msgs := [Msg.append st.post.id ch] }) := by
  by_cases hid : st.post.id = 0
  · left
    have h : appendRune cfg st ch =
        { err := some WsErr.noPostOpen, st := st } := by
      have hhp : hasPost st = (false, some WsErr.noPostOpen) := by
        simp [hasPost, hid]
      simp [appendRune, hhp]
    rw [h]
    exact ⟨rfl, rfl, Or.inl hid⟩
  · have hhp : hasPost st = (true, none) := by simp [hasPost, hid]
    by_cases hlen : st.post.len + 1 > (cfg.maxLenBody : Int)
    · left
      have h : appendRune cfg st ch = { err := some WsErr.bodyTooLong, st := st } := by
        simp only [appendRune, hhp]
        rw [if_neg (by simp), if_neg (by simp), if_pos hlen]
      rw [h]
      exact ⟨rfl, rfl, Or.inr (by simp)⟩
    · by_cases hnul : ch.toNat = 0
      · left
        have h : appendRune cfg st ch = { err := some WsErr.containsNull, st := st } := by
          simp only [appendRune, hhp]
          rw [if_neg (by simp), if_neg (by simp), if_neg hlen, if_pos hnul]
        rw [h]
        exact ⟨rfl, rfl, Or.inr (by simp)⟩
      · by_cases hnl : ch = '\n'
        · subst hnl
          by_cases hml : st.post.lines + 1 > (cfg.maxLinesBody : Int)
          · right; left
            have h : appendRune cfg st '\n' =
                { err := some WsErr.tooManyLines
                  st := { st with post :=
                    { st.post with lines := st.post.lines + 1 } } } := by
              simp only [appendRune, hhp]
              rw [if_neg (by simp), if_neg (by simp), if_neg hlen, if_neg hnul]
              simp [hml]
            rw [h]
            exact ⟨rfl, rfl, rfl, rfl⟩
          · right; right
            have h : appendRune cfg st '\n' =
                { err := none
                  st := { st with
                    post := { st.post with
                      body := st.post.body ++ encodeChar '\n'
                      len := st.post.len + 1
                      lines := st.post.lines + (if ('\n' : Char) = '\n' then 1 else 0) }
                    spamScore := st.spamScore + 1 * cfg.charScore }
                  msgs := [Msg.append st.post.id '\n'] } := by
              simp only [appendRune, hhp, updateBody]
              rw [if_neg (by simp), if_neg (by simp), if_neg hlen, if_neg hnul]
              simp [hml, show isPrintable '\n' true = true from by decide]
            refine ⟨hid, hnul, by decide, by omega, fun _ => by omega, h⟩
        · by_cases hpr : isPrintable ch true = true
          · right; right
            have h : appendRune cfg st ch =
                { err := none
                  st := { st with
                    post := { st.post with
                      body := st.post.body ++ encodeChar ch
                      len := st.post.len + 1
                      lines := st.post.lines + (if ch = '\n' then 1 else 0) }
                    spamScore := st.spamScore + 1 * cfg.charScore }
                  msgs := [Msg.append st.post.id ch] } := by
              simp only [appendRune, hhp, updateBody]
              rw [if_neg (by simp), if_neg (by simp), if_neg hlen, if_neg hnul]
              simp [hnl, hpr]
            refine ⟨hid, hnul, hpr, by omega, fun hcon => absurd hcon hnl, h⟩
          · left
            have h : appendRune cfg st ch = { err := some WsErr.notPrintable, st := st } := by
              simp only [appendRune, hhp]
              rw [if_neg (by simp), if_neg (by simp), if_neg hlen, if_neg hnul]
              simp [hnl, hpr]
            rw [h]
            exact ⟨rfl, rfl, Or.inr (by simp)⟩

theorem backspace_cases (cfg : Cfg) (st : ClientState) :
    ((backspace cfg st).st = st ∧ (backspace cfg st).msgs = [] ∧
      (st.post.id = 0 ∨ (st.post.len = 0 ∧
        (backspace cfg st).err = some WsErr.emptyPost))) ∨
    (st.post.id ≠ 0 ∧ st.post.len ≠ 0 ∧
      backspace cfg st =
        { err := none
          st := { st with
            post := { st.post with
              body := st.post.body.take
                (st.post.body.length - (decodeLast st.post.body).2)
              lines := if (decodeLast st.post.body).1 = '\n'
                then st.post.lines - 1 else st.post.lines
              len := st.post.len - 1 }
            spamScore := st.spamScore + 1 * cfg.charScore }
          msgs := [Msg.backspaceMsg st.post.id] }) := by
  by_cases hid : st.post.id = 0
  · left
    have h : backspace cfg st =
        { err := some WsErr.noPostOpen, st := st } := by
      have hhp : hasPost st = (false, some WsErr.noPostOpen) := by
        simp [hasPost, hid]
      simp [backspace, hhp]
    rw [h]
    exact ⟨rfl, rfl, Or.inl hid⟩
  · have hhp : hasPost st = (true, none) := by simp [hasPost, hid]
    by_cases hlen : st.post.len = 0
    · left
      have h : backspace cfg st = { err := some WsErr.emptyPost, st := st } := by
        simp only [backspace, hhp]
        rw [if_neg (by simp), if_neg (by simp), if_pos hlen]
      rw [h]
      exact ⟨rfl, rfl, Or.inr ⟨hlen, rfl⟩⟩
    · right
      refine ⟨hid, hlen, ?_⟩
      simp only [backspace, hhp, updateBody]
      rw [if_neg (by simp), if_neg (by simp), if_neg hlen]

theorem spliceText_cases (cfg : Cfg) (st : ClientState) (req : SpliceReq) :
    ((spliceText cfg st req).st = st ∧ (spliceText cfg st req).msgs = [] ∧
      (st.post.id = 0 ∨ (spliceText cfg st req).err ≠ none)) ∨
    (st.post.id ≠ 0 ∧ isPrintableRunes req.text true = true ∧
      req.start ≤ cfg.maxLenBody ∧ req.len ≤ cfg.maxLenBody ∧
      ((req.start + req.len : Nat) : Int) ≤ st.post.len ∧
      ¬(req.len = 0 ∧ req.text = []) ∧ req.text.length ≤ cfg.maxLenBody ∧
      req.text.any (fun r => r.toNat = 0) = false ∧
      spliceText cfg st req = spliceMut cfg st req) := by
  by_cases hid : st.post.id = 0
  · left
    have h : spliceText cfg st req =
        { err := some WsErr.noPostOpen, st := st } := by
      have hhp : hasPost st = (false, some WsErr.noPostOpen) := by
        simp [hasPost, hid]
      simp [spliceText, hhp]
    rw [h]
    exact ⟨rfl, rfl, Or.inl hid⟩
  · have hhp : hasPost st = (true, none) := by simp [hasPost, hid]
    by_cases hpr : isPrintableRunes req.text true = true
    · by_cases hco : req.start > cfg.maxLenBody ∨ req.len > cfg.maxLenBody ∨
          ((req.start + req.len : Nat) : Int) > st.post.len
      · left
        have h : spliceText cfg st req =
            { err := some WsErr.invalidSpliceCoords, st := st } := by
          simp only [spliceText, hhp]
          rw [if_neg (by simp), if_neg (by simp), if_neg (by simp [hpr]),
            if_pos hco]
        rw [h]
        exact ⟨rfl, rfl, Or.inr (by simp)⟩
      · by_cases hnoop : req.len = 0 ∧ req.text = []
        · left
          have h : spliceText cfg st req =
              { err := some WsErr.spliceNOOP, st := st } := by
            simp only [spliceText, hhp]
            rw [if_neg (by simp), if_neg (by simp), if_neg (by simp [hpr]),
              if_neg hco, if_pos hnoop]
          rw [h]
          exact ⟨rfl, rfl, Or.inr (by simp)⟩
        · by_cases htl : req.text.length > cfg.maxLenBody
          · left
            have h : spliceText cfg st req =
                { err := some WsErr.spliceTooLong, st := st } := by
              simp only [spliceText, hhp]
              rw [if_neg (by simp), if_neg (by simp), if_neg (by simp [hpr]),
                if_neg hco, if_neg hnoop, if_pos htl]
            rw [h]
            exact ⟨rfl, rfl, Or.inr (by simp)⟩
          · by_cases hnul : req.text.any (fun r => r.toNat = 0) = true
            · left
              have h : spliceText cfg st req =
                  { err := some WsErr.containsNull, st := st } := by
                simp only [spliceText, hhp]
                rw [if_neg (by simp), if_neg (by simp),
                  if_neg (by simp [hpr]), if_neg hco, if_neg hnoop,
                  if_neg htl, if_pos hnul]
              rw [h]
              exact ⟨rfl, rfl, Or.inr (by simp)⟩
            · right
              push_neg at hco
              refine ⟨hid, hpr, by omega, by omega, hco.2.2, hnoop, by omega,
                by simpa using hnul, ?_⟩
              simp only [spliceText, hhp]
              rw [if_neg (by simp), if_neg (by simp), if_neg (by simp [hpr]),
                if_neg (by push_neg; exact hco), if_neg hnoop, if_neg htl,
                if_neg hnul]
    · left
      have h : spliceText cfg st req =
          { err := some WsErr.notPrintable, st := st } := by
        simp only [spliceText, hhp]
        rw [if_neg (by simp), if_neg (by simp), if_pos (by simp [hpr])]
      rw [h]
      exact ⟨rfl, rfl, Or.inr (by simp)⟩

/-- Rune-level characterization of the mutating tail of `spliceText` on a
well-formed body: the new body encodes
`(rs[0:start] ++ text ++ rs[start+len:]).take maxLenBody`, the `len` and
`lines` counters match it, the other post fields are untouched, the error is
`too_many_lines` exactly when the recounted lines exceed the limit, and on
success the broadcast message carries the (possibly trimmed) coordinates. -/
theorem spliceMut_spec (cfg : Cfg) (st : ClientState) (req : SpliceReq)
    (rs : List Char) (hb : st.post.body = encodeList rs)
    (hl : st.post.len = (rs.length : Int))
    (hs : req.start ≤ cfg.maxLenBody)
    (hsl : req.start + req.len ≤ rs.length) :
    (spliceMut cfg st req).st.post.body =
      encodeList ((rs.take req.start ++ req.text ++
        rs.drop (req.start + req.len)).take cfg.maxLenBody) ∧
    (spliceMut cfg st req).st.post.len =
      (((rs.take req.start ++ req.text ++
        rs.drop (req.start + req.len)).take cfg.maxLenBody).length : Int) ∧
    (spliceMut cfg st req).st.post.lines =
      (((rs.take req.start ++ req.text ++
        rs.drop (req.start + req.len)).take cfg.maxLenBody).count '\n' : Int) ∧
    (spliceMut cfg st req).st.post.id = st.post.id ∧
    (spliceMut cfg st req).st.post.op = st.post.op ∧
    (spliceMut cfg st req).st.post.board = st.post.board ∧
    (spliceMut cfg st req).st.post.isSpoilered = st.post.isSpoilered ∧
    (spliceMut cfg st req).err =
      (if (((rs.take req.start ++ req.text ++
          rs.drop (req.start + req.len)).take cfg.maxLenBody).count '\n' : Int) >
          (cfg.maxLinesBody : Int)
        then some WsErr.tooManyLines else none) ∧
    ((spliceMut cfg st req).err = none →
      (spliceMut cfg st req).msgs =
        (if rs.length + req.text.length - req.len ≤ cfg.maxLenBody
          then [Msg.splice st.post.id req.start req.len req.text]
          else [Msg.splice st.post.id req.start (rs.length - req.start)
            ((req.text ++ rs.drop (req.start + req.len)).take
              (cfg.maxLenBody - req.start))])) := by
  have hold : decodeList st.post.body = rs := by rw [hb, decodeList_encodeList]
  have hsle : req.start ≤ rs.length := le_trans (Nat.le_add_right _ _) hsl
  by_cases hex : rs.length + req.text.length - req.len ≤ cfg.maxLenBody
  · -- no overflow: the whole reconstructed text fits
    have hcond : ¬ (0 < (rs.length : Int) - req.len + req.text.length -
        cfg.maxLenBody) := by omega
    have htot : (rs.take req.start ++ req.text ++
        rs.drop (req.start + req.len)).take cfg.maxLenBody =
        rs.take req.start ++ (req.text ++ rs.drop (req.start + req.len)) := by
      rw [List.append_assoc]
      apply List.take_of_length_le
      simp only [List.length_append, List.length_take, List.length_drop]
      omega
    simp only [spliceMut, updateBody, hold, hl, hb, decodeList_encodeList,
      take_encodeList, if_neg hcond, ← encodeList_append,
      countLines_encodeList, htot, ← List.append_assoc]
    have hlen2 : ((rs.length : Int) - req.len + req.text.length) =
        ((rs.take req.start ++ req.text ++
          rs.drop (req.start + req.len)).length : Int) := by
      simp only [List.length_append, List.length_take, List.length_drop]
      push_cast
      omega
    by_cases hln : (((rs.take req.start ++ req.text ++
        rs.drop (req.start + req.len)).count '\n' : Int)) >
        (cfg.maxLinesBody : Int)
    · simp only [if_pos hln]
      refine ⟨?_, ?_, ?_, ?_, ?_, ?_, ?_, ?_, ?_⟩ <;>
        first | trivial | exact hlen2 | simp
    · simp only [if_neg hln]
      refine ⟨?_, ?_, ?_, ?_, ?_, ?_, ?_, ?_, fun _ => ?_⟩ <;>
        first | trivial | exact hlen2 | rw [if_pos hex]
  · -- overflow: the tail is trimmed to fit
    have hcond : (0 < (rs.length : Int) - req.len + req.text.length -
        cfg.maxLenBody) := by omega
    have htake : (req.text ++ rs.drop (req.start + req.len)).length -
        ((rs.length : Int) - req.len + req.text.length -
          cfg.maxLenBody).toNat = cfg.maxLenBody - req.start := by
      simp only [List.length_append, List.length_drop]
      omega
    have htot : (rs.take req.start ++ req.text ++
        rs.drop (req.start + req.len)).take cfg.maxLenBody =
        rs.take req.start ++ (req.text ++
          rs.drop (req.start + req.len)).take (cfg.maxLenBody - req.start) := by
      have h1 : (rs.take req.start).length = req.start := by
        simp only [List.length_take]
        omega
      rw [List.append_assoc]
      conv_lhs => rw [show cfg.maxLenBody =
        (rs.take req.start).length + (cfg.maxLenBody - req.start) from by
          rw [h1]; omega]
      exact List.take_append _
    have hdroplen : ((rs.drop req.start).length : Int) =
        ((rs.length : Int) - req.start) := by
      simp only [List.length_drop]
      omega
    simp only [spliceMut, updateBody, hold, hl, hb, decodeList_encodeList,
      take_encodeList, if_pos hcond, htake, ← encodeList_append,
      countLines_encodeList, htot, ← List.append_assoc]
    have hlen2 : ((cfg.maxLenBody : Nat) : Int) =
        ((rs.take req.start ++ (req.text ++
          rs.drop (req.start + req.len)).take
            (cfg.maxLenBody - req.start)).length : Int) := by
      simp only [List.length_append, List.length_take, List.length_drop]
      push_cast
      omega
    by_cases hln : (((rs.take req.start ++ ((req.text ++
        rs.drop (req.start + req.len)).take
          (cfg.maxLenBody - req.start))).count '\n' : Int)) >
        (cfg.maxLinesBody : Int)
    · simp only [if_pos hln]
      refine ⟨?_, ?_, ?_, ?_, ?_, ?_, ?_, ?_, ?_⟩ <;>
        first | trivial | exact hlen2 | simp
    · simp only [if_neg hln]
      refine ⟨?_, ?_, ?_, ?_, ?_, ?_, ?_, ?_, fun _ => ?_⟩ <;>
        first | trivial | exact hlen2 |
          (rw [if_neg hex]; simp only [List.length_drop])

/-- Build `Wf` from an explicit rune decomposition of the body. -/
theorem wf_encode (p : openPost) (rs : List Char) (hb : p.body = encodeList rs)
    (hl : p.len = (rs.length : Int)) (hn : ∀ ch ∈ rs, ch.toNat ≠ 0) : Wf p := by
  unfold Wf
  rw [hb, decodeList_encodeList]
  exact ⟨rfl, hl, hn⟩

/-- Exact outcome of `backspace` when the body visibly ends in one encoded
rune; no well-formedness of the leading bytes is needed, because
`utf8.DecodeLastRune` only inspects the trailing rune. -/
theorem backspace_spec (cfg : Cfg) (st : ClientState) (bs : List Nat)
    (ch : Char) (hb : st.post.body = bs ++ encodeChar ch)
    (hid : st.post.id ≠ 0) (hlen : st.post.len ≠ 0) :
    backspace cfg st =
      { err := none
        st := { st with
          post := { st.post with
            body := bs
            lines := if ch = '\n' then st.post.lines - 1 else st.post.lines
            len := st.post.len - 1 }
          spamScore := st.spamScore + 1 * cfg.charScore }
        msgs := [Msg.backspaceMsg st.post.id] } := by
  rcases backspace_cases cfg st with ⟨_, _, h0 | ⟨h0, _⟩⟩ | ⟨_, _, heq⟩
  · exact absurd h0 hid
  · exact absurd h0 hlen
  · rw [heq, hb, decodeLast_append]
    have htake : (bs ++ encodeChar ch).take
        ((bs ++ encodeChar ch).length - utf8Len ch) = bs := by
      rw [List.length_append, encodeChar_length, Nat.add_sub_cancel]
      exact List.take_left _ _
    rw [htake]

/-! ## Preservation of well-formedness and validity -/

theorem wf_appendRune (cfg : Cfg) (st : ClientState) (ch : Char)
    (h : Wf st.post) : Wf (appendRune cfg st ch).st.post := by
  rcases appendRune_cases cfg st ch with ⟨hst, _, _⟩ | ⟨_, _, hst, _⟩ |
    ⟨_, hch, _, _, _, heq⟩
  · rw [hst]; exact h
  · rw [hst]; exact ⟨h.1, h.2.1, h.2.2⟩
  · rw [heq]
    obtain ⟨hb, hl, hn⟩ := h
    apply wf_encode _ (decodeList st.post.body ++ [ch])
    · show st.post.body ++ encodeChar ch = _
      rw [encodeList_append, encodeList_singleton, ← hb]
    · show st.post.len + 1 = _
      rw [hl]
      simp only [List.length_append, List.length_singleton]
      push_cast
      omega
    · intro x hx
      rcases List.mem_append.mp hx with hx | hx
      · exact hn x hx
      · rw [List.mem_singleton.mp hx]; exact hch

theorem wf_backspace (cfg : Cfg) (st : ClientState)
    (h : Wf st.post) : Wf (backspace cfg st).st.post := by
  rcases backspace_cases cfg st with ⟨hst, _, _⟩ | ⟨hid, hlen, _⟩
  · rw [hst]; exact h
  · obtain ⟨hb, hl, hn⟩ := h
    have hne : decodeList st.post.body ≠ [] := by
      intro hcon
      rw [hcon] at hl
      simp at hl
      exact hlen (by rw [hl])
    have hdec : st.post.body =
        encodeList (decodeList st.post.body).dropLast ++
          encodeChar ((decodeList st.post.body).getLast hne) := by
      conv_lhs => rw [hb]
      conv_lhs => rw [show decodeList st.post.body =
        (decodeList st.post.body).dropLast ++
          [(decodeList st.post.body).getLast hne] from
        (List.dropLast_append_getLast hne).symm]
      rw [encodeList_append, encodeList_singleton]
    rw [backspace_spec cfg st _ _ hdec hid hlen]
    apply wf_encode _ ((decodeList st.post.body).dropLast)
    · rfl
    · show st.post.len - 1 = _
      rw [hl, List.length_dropLast]
      have := List.length_pos.mpr hne
      omega
    · intro x hx
      exact hn x (List.dropLast_subset _ hx)

theorem wf_spliceText (cfg : Cfg) (st : ClientState) (req : SpliceReq)
    (h : Wf st.post) : Wf (spliceText cfg st req).st.post := by
  rcases spliceText_cases cfg st req with ⟨hst, _, _⟩ |
    ⟨_, _, hs, _, hsl, _, _, hnul, heq⟩
  · rw [hst]; exact h
  · obtain ⟨hb, hl, hn⟩ := h
    have hsl' : req.start + req.len ≤ (decodeList st.post.body).length := by
      rw [hl] at hsl
      exact_mod_cast hsl
    obtain ⟨h1, h2, h3, _⟩ :=
      spliceMut_spec cfg st req (decodeList st.post.body) hb hl hs hsl'
    rw [heq]
    apply wf_encode _ _ h1 h2
    intro x hx
    have hx' := List.take_subset _ _ hx
    rcases List.mem_append.mp hx' with hx2 | hx2
    · rcases List.mem_append.mp hx2 with hx3 | hx3
      · exact hn x (List.take_subset _ _ hx3)
      · have := List.any_eq_false.mp hnul x hx3
        simpa using this
    · exact hn x (List.drop_subset _ _ hx2)

theorem valid_appendRune (cfg : Cfg) (st : ClientState) (ch : Char)
    (h : validPost cfg st.post) (he : (appendRune cfg st ch).err = none) :
    validPost cfg (appendRune cfg st ch).st.post := by
  obtain ⟨hwf, hlines, hmaxlen, hmaxlines⟩ := h
  rcases appendRune_cases cfg st ch with ⟨hst, _, _⟩ | ⟨_, herr, _, _⟩ |
    ⟨_, hch, _, hlen, hml, heq⟩
  · rw [hst]; exact ⟨hwf, hlines, hmaxlen, hmaxlines⟩
  · rw [herr] at he; cases he
  · refine ⟨wf_appendRune cfg st ch hwf, ?_, ?_, ?_⟩ <;> rw [heq]
    · show st.post.lines + (if ch = '\n' then 1 else 0) =
        (countLines (st.post.body ++ encodeChar ch) : Int)
      rw [countLines_append, countLines_encodeChar]
      by_cases hc : ch = '\n' <;> simp [hc, hlines]
    · exact hlen
    · show st.post.lines + (if ch = '\n' then 1 else 0) ≤ _
      by_cases hc : ch = '\n'
      · simpa [hc] using hml hc
      · simpa [hc] using hmaxlines

theorem valid_backspace (cfg : Cfg) (st : ClientState)
    (h : validPost cfg st.post) :
    validPost cfg (backspace cfg st).st.post := by
  obtain ⟨hwf, hlines, hmaxlen, hmaxlines⟩ := h
  rcases backspace_cases cfg st with ⟨hst, _, _⟩ | ⟨hid, hlen, _⟩
  · rw [hst]; exact ⟨hwf, hlines, hmaxlen, hmaxlines⟩
  · obtain ⟨hb, hl, hn⟩ := hwf
    have hne : decodeList st.post.body ≠ [] := by
      intro hcon
      rw [hcon] at hl
      simp at hl
      exact hlen (by rw [hl])
    have hdec : st.post.body =
        encodeList (decodeList st.post.body).dropLast ++
          encodeChar ((decodeList st.post.body).getLast hne) := by
      conv_lhs => rw [hb]
      conv_lhs => rw [show decodeList st.post.body =
        (decodeList st.post.body).dropLast ++
          [(decodeList st.post.body).getLast hne] from
        (List.dropLast_append_getLast hne).symm]
      rw [encodeList_append, encodeList_singleton]
    have hcnt : countLines st.post.body =
        (decodeList st.post.body).dropLast.count '\n' +
          (if (decodeList st.post.body).getLast hne = '\n' then 1 else 0) := by
      conv_lhs => rw [hdec]
      rw [countLines_append, countLines_encodeList, countLines_encodeChar]
    refine ⟨wf_backspace cfg st ⟨hb, hl, hn⟩, ?_, ?_, ?_⟩ <;>
      rw [backspace_spec cfg st _ _ hdec hid hlen]
    · show (if (decodeList st.post.body).getLast hne = '\n'
          then st.post.lines - 1 else st.post.lines) =
        (countLines (encodeList (decodeList st.post.body).dropLast) : Int)
      rw [countLines_encodeList]
      rw [hcnt] at hlines
      by_cases hc : (decodeList st.post.body).getLast hne = '\n' <;>
        simp [hc] at hlines ⊢ <;> omega
    · show st.post.len - 1 ≤ _
      omega
    · show (if (decodeList st.post.body).getLast hne = '\n'
          then st.post.lines - 1 else st.post.lines) ≤ _
      by_cases hc : (decodeList st.post.body).getLast hne = '\n' <;>
        simp [hc] <;> omega

theorem valid_spliceText (cfg : Cfg) (st : ClientState) (req : SpliceReq)
    (h : validPost cfg st.post) (he : (spliceText cfg st req).err = none) :
    validPost cfg (spliceText cfg st req).st.post := by
  obtain ⟨hwf, hlines, hmaxlen, hmaxlines⟩ := h
  rcases spliceText_cases cfg st req with ⟨hst, _, _⟩ |
    ⟨_, _, hs, _, hsl, _, _, hnul, heq⟩
  · rw [hst]; exact ⟨hwf, hlines, hmaxlen, hmaxlines⟩
  · obtain ⟨hb, hl, hn⟩ := hwf
    have hsl' : req.start + req.len ≤ (decodeList st.post.body).length := by
      rw [hl] at hsl
      exact_mod_cast hsl
    obtain ⟨h1, h2, h3, _, _, _, _, herr, _⟩ :=
      spliceMut_spec cfg st req (decodeList st.post.body) hb hl hs hsl'
    rw [heq] at he
    refine ⟨wf_spliceText cfg st req ⟨hb, hl, hn⟩, ?_, ?_, ?_⟩ <;> rw [heq]
    · rw [h1, h3, countLines_encodeList]
    · rw [h2]
      have := List.length_take_le cfg.maxLenBody
        ((decodeList st.post.body).take req.start ++ req.text ++
          (decodeList st.post.body).drop (req.start + req.len))
      exact_mod_cast this
    · rw [h3]
      rw [herr] at he
      by_cases hln : ((((decodeList st.post.body).take req.start ++ req.text ++
          (decodeList st.post.body).drop (req.start + req.len)).take
            cfg.maxLenBody).count '\n' : Int) > (cfg.maxLinesBody : Int)
      · rw [if_pos hln] at he; cases he
      · omega

/-- Well-formedness survives any sequence of body mutations, successful or
failing. -/
theorem wf_runOps (cfg : Cfg) (ops : List WOp) (st : ClientState)
    (h : Wf st.post) : Wf (runOps cfg st ops).post := by
  induction ops generalizing st with
  | nil => exact h
  | cons o os ih =>
    simp only [runOps]
    apply ih
    cases o with
    | app ch => exact wf_appendRune cfg st ch h
    | back => exact wf_backspace cfg st h
    | spl r => exact wf_spliceText cfg st r h

/-- Full validity survives a sequence of mutations when every one of them
succeeds. -/
theorem valid_runOps (cfg : Cfg) (ops : List WOp) (st : ClientState)
    (h : validPost cfg st.post) (hok : allOk cfg st ops = true) :
    validPost cfg (runOps cfg st ops).post := by
  induction ops generalizing st with
  | nil => exact h
  | cons o os ih =>
    simp only [allOk, Bool.and_eq_true, beq_iff_eq] at hok
    simp only [runOps]
    apply ih _ _ hok.2
    cases o with
    | app ch => exact valid_appendRune cfg st ch h hok.1
    | back => exact valid_backspace cfg st h
    | spl r => exact valid_spliceText cfg st r h hok.1

/-! ## Claims -/

/-- C1 (counterexample): with no open post every operation does fail with
`no_post_open`, but the claim's "changes no state" part is false:
`insertImage` and `spoilerImage` increment the spam score (from 0 to
CharScore = 1 here) before the check. -/
theorem C1_counterexample :
    (insertImage cfgT stNone false false ⟨false⟩).err =
      some WsErr.noPostOpen ∧
    (insertImage cfgT stNone false false ⟨false⟩).st.spamScore = 1 ∧
    (spoilerImage cfgT stNone false).err = some WsErr.noPostOpen ∧
    (spoilerImage cfgT stNone false).st.spamScore = 1 ∧
    stNone.spamScore = 0 := by
  refine ⟨?_, ?_, ?_, ?_, ?_⟩ <;> decide

/-- C1 (amended): every PostWriter operation invoked with no open post
fails with `no_post_open`, leaves the open post untouched and broadcasts
nothing; but `insertImage` and `spoilerImage` do change state — each adds
`CharScore` to the spam score before the check. -/
theorem C1_amended (cfg : Cfg) (st : ClientState) (h : st.post.id = 0)
    (ch : Char) (req : SpliceReq) (env : CloseEnv) (dbHas : Bool) (bto : Bool)
    (ireq : ImageRequest) (dbHas2 : Bool) :
    (appendRune cfg st ch).err = some WsErr.noPostOpen ∧
    (appendRune cfg st ch).st = st ∧
    (appendRune cfg st ch).msgs = [] ∧
    (backspace cfg st).err = some WsErr.noPostOpen ∧
    (backspace cfg st).st = st ∧
    (backspace cfg st).msgs = [] ∧
    (spliceText cfg st req).err = some WsErr.noPostOpen ∧
    (spliceText cfg st req).st = st ∧
    (spliceText cfg st req).msgs = [] ∧
    (closePost cfg st env).err = some WsErr.noPostOpen ∧
    (closePost cfg st env).st = st ∧ (closePost cfg st env).msgs = [] ∧
    (closePost cfg st env).parseCall = none ∧
    (insertImage cfg st dbHas bto ireq).err = some WsErr.noPostOpen ∧
    (insertImage cfg st dbHas bto ireq).st.post = st.post ∧
    (insertImage cfg st dbHas bto ireq).st.spamScore =
      st.spamScore + cfg.charScore ∧
    (insertImage cfg st dbHas bto ireq).msgs = [] ∧
    (spoilerImage cfg st dbHas2).err = some WsErr.noPostOpen ∧
    (spoilerImage cfg st dbHas2).st.post = st.post ∧
    (spoilerImage cfg st dbHas2).st.spamScore = st.spamScore + cfg.charScore ∧
    (spoilerImage cfg st dbHas2).msgs = [] := by
  refine ⟨?_, ?_, ?_, ?_, ?_, ?_, ?_, ?_, ?_, ?_, ?_, ?_, ?_, ?_, ?_, ?_,
    ?_, ?_, ?_, ?_, ?_⟩ <;>
    simp [appendRune, backspace, spliceText, closePost, insertImage,
      spoilerImage, hasPost, h]

/-- C1 (witness): the amended statement at a concrete client with no open
post. -/
theorem C1_witness :
    (appendRune cfgT stNone 'a').err = some WsErr.noPostOpen ∧
    (appendRune cfgT stNone 'a').st = stNone ∧
    (appendRune cfgT stNone 'a').msgs = [] ∧
    (backspace cfgT stNone).err = some WsErr.noPostOpen ∧
    (backspace cfgT stNone).st = stNone ∧
    (backspace cfgT stNone).msgs = [] ∧
    (spliceText cfgT stNone ⟨0, 0, "hi".data⟩).err =
      some WsErr.noPostOpen ∧
    (spliceText cfgT stNone ⟨0, 0, "hi".data⟩).st = stNone ∧
    (spliceText cfgT stNone ⟨0, 0, "hi".data⟩).msgs = [] ∧
    (closePost cfgT stNone {}).err = some WsErr.noPostOpen ∧
    (closePost cfgT stNone {}).st = stNone ∧
    (closePost cfgT stNone {}).msgs = [] ∧
    (closePost cfgT stNone {}).parseCall = none ∧
    (insertImage cfgT stNone true false ⟨true⟩).err = some WsErr.noPostOpen ∧
    (insertImage cfgT stNone true false ⟨true⟩).st.post = stNone.post ∧
    (insertImage cfgT stNone true false ⟨true⟩).st.spamScore =
      stNone.spamScore + cfgT.charScore ∧
    (insertImage cfgT stNone true false ⟨true⟩).msgs = [] ∧
    (spoilerImage cfgT stNone true).err = some WsErr.noPostOpen ∧
    (spoilerImage cfgT stNone true).st.post = stNone.post ∧
    (spoilerImage cfgT stNone true).st.spamScore =
      stNone.spamScore + cfgT.charScore ∧
    (spoilerImage cfgT stNone true).msgs = [] :=
  C1_amended cfgT stNone rfl 'a' ⟨0, 0, "hi".data⟩ {} true false ⟨true⟩ true

/-- C6 (code evaluation): closing an open post with the non-empty body "hi"
invokes `parser.ParseBody` on that body with the `final` flag set to `false`,
where the claim and spec require `true`. -/
theorem C6_code_eval :
    (closePost cfgT (mkOpen "hi") {}).parseCall =
      some (encodeList "hi".data, false) := by
  decide

/-- C7 (counterexample): when the Store says the post already has an image,
`insertImage` does not fail with `has_image`; it returns success and
broadcasts nothing. -/
theorem C7_counterexample :
    (insertImage cfgT (mkOpen "x") true false ⟨true⟩).err = none ∧
    (insertImage cfgT (mkOpen "x") true false ⟨true⟩).err ≠
      some WsErr.hasImageErr ∧
    (insertImage cfgT (mkOpen "x") true false ⟨true⟩).msgs = [] := by
  refine ⟨?_, ?_, ?_⟩ <;> decide

/-- C7 (amended): whether a post "already has an image" is decided by the
Store lookup, not client-side state; when the Store says yes, `insertImage`
is a silent NOP — success, no broadcast, post unchanged, only the
unconditional CharScore spam increment — and when the Store says no, the
insertion proceeds and broadcasts even if the stale client-side spoiler flag
is still set. -/
theorem C7_amended (cfg : Cfg) (st : ClientState) (ireq : ImageRequest)
    (bto : Bool) (h : st.post.id ≠ 0) :
    (insertImage cfg st true bto ireq).err = none ∧
    (insertImage cfg st true bto ireq).msgs = [] ∧
    (insertImage cfg st true bto ireq).st.post = st.post ∧
    (insertImage cfg st true bto ireq).st.spamScore =
      st.spamScore + cfg.charScore ∧
    (insertImage cfg st false false ireq).err = none ∧
    (insertImage cfg st false false ireq).msgs =
      [Msg.insertImageMsg st.post.id ireq.spoiler] := by
  refine ⟨?_, ?_, ?_, ?_, ?_, ?_⟩ <;>
    simp [insertImage, hasImage, hasPost, h]

/-- C7 (witness): the amended statement at a concrete open post whose stale
spoiler flag is set. -/
theorem C7_witness :
    (insertImage cfgT stStale true false ⟨false⟩).err = none ∧
    (insertImage cfgT stStale true false ⟨false⟩).msgs = [] ∧
    (insertImage cfgT stStale true false ⟨false⟩).st.post = stStale.post ∧
    (insertImage cfgT stStale true false ⟨false⟩).st.spamScore =
      stStale.spamScore + cfgT.charScore ∧
    (insertImage cfgT stStale false false ⟨false⟩).err = none ∧
    (insertImage cfgT stStale false false ⟨false⟩).msgs =
      [Msg.insertImageMsg stStale.post.id false] :=
  C7_amended cfgT stStale ⟨false⟩ false (by decide)

/-- C8 (counterexample): `insertImage` does change the spam score — the call
on a fresh open post raises it from 0 to CharScore = 1. -/
theorem C8_counterexample :
    (insertImage cfgT (mkOpen "x") false false ⟨false⟩).st.spamScore = 1 ∧
    (mkOpen "x").spamScore = 0 := by
  refine ⟨?_, ?_⟩ <;> decide

/-- C8 (amended): every `insertImage` call — successful, failing, or NOP —
adds exactly CharScore to the spam score (an anti-spam guard at entry); the
image-level `ImageScore` accounting indeed happens at thumbnail time outside
the core. -/
theorem C8_amended (cfg : Cfg) (st : ClientState) (dbHas bto : Bool)
    (ireq : ImageRequest) :
    (insertImage cfg st dbHas bto ireq).st.spamScore =
      st.spamScore + cfg.charScore := by
  by_cases h : st.post.id = 0 <;> cases dbHas <;> cases bto <;>
    simp [insertImage, hasImage, hasPost, h]

/-- C10: `hasImage` resets the client-side spoiler flag whenever the Store
reports no image; consequently, after an image was stolen, a freshly
inserted unspoilered image does not inherit the stale flag, and a subsequent
`spoilerImage` takes the real branch — broadcasting `MessageSpoiler` — rather
than the idempotent already-spoilered NOP branch. -/
theorem C10_respoiler (cfg : Cfg) (st : ClientState) (h : st.post.id ≠ 0) :
    (hasImage st false).1 = false ∧
    (hasImage st false).2.post.isSpoilered = false ∧
    (insertImage cfg st false false ⟨false⟩).err = none ∧
    (insertImage cfg st false false ⟨false⟩).st.post.isSpoilered = false ∧
    (spoilerImage cfg (insertImage cfg st false false ⟨false⟩).st true).err =
      none ∧
    (spoilerImage cfg (insertImage cfg st false false ⟨false⟩).st true).msgs =
      [Msg.spoilerMsg st.post.id] := by
  refine ⟨?_, ?_, ?_, ?_, ?_, ?_⟩ <;>
    simp [insertImage, spoilerImage, hasImage, hasPost, h]

/-- C10 (witness): the respoiler scenario at a concrete client whose open
post still carries a stale `isSpoilered = true` from before the steal. -/
theorem C10_respoiler_witness :
    (hasImage stStale false).1 = false ∧
    (hasImage stStale false).2.post.isSpoilered = false ∧
    (insertImage cfgT stStale false false ⟨false⟩).err = none ∧
    (insertImage cfgT stStale false false ⟨false⟩).st.post.isSpoilered =
      false ∧
    (spoilerImage cfgT (insertImage cfgT stStale false false ⟨false⟩).st
      true).err = none ∧
    (spoilerImage cfgT (insertImage cfgT stStale false false ⟨false⟩).st
      true).msgs = [Msg.spoilerMsg stStale.post.id] :=
  C10_respoiler cfgT stStale (by decide)

/-- C2: for every open post whose body encodes the runes `rs` and every
accepted splice request, the resulting body decodes to exactly
`rs[0:start] ++ text ++ rs[start+len:]` tail-trimmed to `MaxLenBody`, and
the post's `len` is that sequence's rune count. -/
theorem C2_splice_replacement (cfg : Cfg) (st : ClientState) (req : SpliceReq)
    (rs : List Char) (hb : st.post.body = encodeList rs)
    (hl : st.post.len = (rs.length : Int)) (hid : st.post.id ≠ 0)
    (he : (spliceText cfg st req).err = none) :
    decodeList (spliceText cfg st req).st.post.body =
      (rs.take req.start ++ req.text ++
        rs.drop (req.start + req.len)).take cfg.maxLenBody ∧
    (spliceText cfg st req).st.post.len =
      (((rs.take req.start ++ req.text ++
        rs.drop (req.start + req.len)).take cfg.maxLenBody).length : Int) := by
  rcases spliceText_cases cfg st req with ⟨_, _, h0 | herr⟩ |
    ⟨_, _, hs, _, hsl, _, _, _, heq⟩
  · exact absurd h0 hid
  · exact absurd he herr
  · have hsl' : req.start + req.len ≤ rs.length := by
      rw [hl] at hsl
      exact_mod_cast hsl
    obtain ⟨h1, h2, _⟩ := spliceMut_spec cfg st req rs hb hl hs hsl'
    rw [heq]
    exact ⟨by rw [h1, decodeList_encodeList], h2⟩

/-- C2 (witness): body "hello", splice(start=1, len=3, text="EY") yields body
"hEYo" with len 4. -/
theorem C2_splice_replacement_witness :
    (spliceText cfgT (mkOpen "hello") ⟨1, 3, "EY".data⟩).err = none ∧
    decodeList (spliceText cfgT (mkOpen "hello")
      ⟨1, 3, "EY".data⟩).st.post.body = "hEYo".data ∧
    (spliceText cfgT (mkOpen "hello") ⟨1, 3, "EY".data⟩).st.post.len = 4 := by
  have h := C2_splice_replacement cfgT (mkOpen "hello") ⟨1, 3, "EY".data⟩
    "hello".data rfl rfl (by decide) (by decide)
  exact ⟨by decide, h.1.trans (by decide), h.2.trans (by decide)⟩

/-- C3 (counterexample): a failing `appendRune` of a newline at the line
limit increments the line counter without touching the body, so after this
one-element sequence from a valid open post `lines = 2` while the body holds
one newline, and `lines` exceeds `MaxLinesBody = 1`. -/
theorem C3_counterexample :
    validPost cfgL (mkOpen "a\nb").post ∧ (mkOpen "a\nb").post.id ≠ 0 ∧
    (runOps cfgL (mkOpen "a\nb") [WOp.app '\n']).post.lines = 2 ∧
    ((decodeList (runOps cfgL (mkOpen "a\nb")
      [WOp.app '\n']).post.body).count '\n' : Int) = 1 ∧
    ¬ ((runOps cfgL (mkOpen "a\nb") [WOp.app '\n']).post.lines ≤
      (cfgL.maxLinesBody : Int)) := by
  refine ⟨?_, ?_, ?_, ?_, ?_⟩ <;> decide

/-- C3 (amended): after any sequence of appendRune, backspace and spliceText
calls that all succeed, starting from a valid OpenPost, the line counter
equals the number of newline runes in the body and both counters are within
their limits. -/
theorem C3_amended (cfg : Cfg) (st : ClientState) (ops : List WOp)
    (h : validPost cfg st.post) (hok : allOk cfg st ops = true) :
    (runOps cfg st ops).post.lines =
      ((decodeList (runOps cfg st ops).post.body).count '\n' : Int) ∧
    (runOps cfg st ops).post.lines ≤ (cfg.maxLinesBody : Int) ∧
    (runOps cfg st ops).post.len ≤ (cfg.maxLenBody : Int) := by
  obtain ⟨⟨hb, _, _⟩, hlines, hmaxlen, hmaxlines⟩ :=
    valid_runOps cfg ops st h hok
  refine ⟨?_, hmaxlines, hmaxlen⟩
  rw [hlines]
  congr 1
  conv_lhs => rw [hb]
  rw [countLines_encodeList]

/-- C3 (amended, witness): an append, a newline append and a backspace, all
successful, preserve the invariant. -/
theorem C3_amended_witness :
    validPost cfgT (mkOpen "a").post ∧
    allOk cfgT (mkOpen "a") [WOp.app 'b', WOp.app '\n', WOp.back] = true ∧
    ((runOps cfgT (mkOpen "a")
        [WOp.app 'b', WOp.app '\n', WOp.back]).post.lines =
      ((decodeList (runOps cfgT (mkOpen "a")
        [WOp.app 'b', WOp.app '\n', WOp.back]).post.body).count '\n' : Int) ∧
    (runOps cfgT (mkOpen "a")
        [WOp.app 'b', WOp.app '\n', WOp.back]).post.lines ≤
      (cfgT.maxLinesBody : Int) ∧
    (runOps cfgT (mkOpen "a")
        [WOp.app 'b', WOp.app '\n', WOp.back]).post.len ≤
      (cfgT.maxLenBody : Int)) :=
  ⟨by decide, by decide,
    C3_amended cfgT (mkOpen "a") [WOp.app 'b', WOp.app '\n', WOp.back]
      (by decide) (by decide)⟩

/-- C4: after any sequence of appendRune, backspace and spliceText calls —
successful or failing — starting from a valid OpenPost, the rune length of
the body equals `len` and the body contains no NUL rune. -/
theorem C4_len_no_nul (cfg : Cfg) (st : ClientState) (ops : List WOp)
    (h : validPost cfg st.post) :
    ((decodeList (runOps cfg st ops).post.body).length : Int) =
      (runOps cfg st ops).post.len ∧
    ∀ ch ∈ decodeList (runOps cfg st ops).post.body, ch.toNat ≠ 0 := by
  obtain ⟨_, hl, hn⟩ := wf_runOps cfg ops st h.1
  exact ⟨hl.symm, hn⟩

/-- C4 (witness): a sequence in which the second and fourth calls fail (a
splice NOOP and a backspace on the emptied body) still preserves
`runeLen(body) = len` and NUL-freedom. -/
theorem C4_len_no_nul_witness :
    validPost cfgT (mkOpen "ø").post ∧
    allOk cfgT (mkOpen "ø")
      [WOp.app 'a', WOp.spl ⟨0, 0, []⟩, WOp.back, WOp.back, WOp.back] =
      false ∧
    (((decodeList (runOps cfgT (mkOpen "ø")
        [WOp.app 'a', WOp.spl ⟨0, 0, []⟩, WOp.back, WOp.back,
          WOp.back]).post.body).length : Int) =
      (runOps cfgT (mkOpen "ø")
        [WOp.app 'a', WOp.spl ⟨0, 0, []⟩, WOp.back, WOp.back,
          WOp.back]).post.len ∧
    ∀ ch ∈ decodeList (runOps cfgT (mkOpen "ø")
        [WOp.app 'a', WOp.spl ⟨0, 0, []⟩, WOp.back, WOp.back,
          WOp.back]).post.body, ch.toNat ≠ 0) :=
  ⟨by decide, by decide,
    C4_len_no_nul cfgT (mkOpen "ø")
      [WOp.app 'a', WOp.spl ⟨0, 0, []⟩, WOp.back, WOp.back, WOp.back]
      (by decide)⟩

/-- C5 (counterexample): with MaxBodyLen = 10, a body of MaxBodyLen-2 = 8
runes and splice(start=0, len=0, 10-rune text "0123456789"), the broadcast
carries the submitted text in full — not the first 2 characters of the
submitted text concatenated with a trimmed body tail, under either reading
("01" or "01abcdefgh"). -/
theorem C5_counterexample :
    (spliceText cfgS (mkOpen "abcdefgh")
      ⟨0, 0, "0123456789".data⟩).err = none ∧
    (spliceText cfgS (mkOpen "abcdefgh") ⟨0, 0, "0123456789".data⟩).msgs =
      [Msg.splice 1 0 8 "0123456789".data] ∧
    "0123456789".data ≠ "01".data ∧
    "0123456789".data ≠ "01abcdefgh".data := by
  refine ⟨?_, ?_, ?_, ?_⟩ <;> decide

/-- C5 (amended): whenever the new rune length exceeds MaxBodyLen, the
combined replacement tail `text ++ body[start+len:]` — not the inserted text
alone — is trimmed from the right by exactly the overflow amount; the
broadcast message carries `len = currentRuneLen - start` and the whole
trimmed tail as its text, and the body becomes the reconstruction trimmed to
MaxBodyLen. -/
theorem C5_amended (cfg : Cfg) (st : ClientState) (req : SpliceReq)
    (rs : List Char) (hb : st.post.body = encodeList rs)
    (hl : st.post.len = (rs.length : Int)) (hid : st.post.id ≠ 0)
    (he : (spliceText cfg st req).err = none)
    (hovf : cfg.maxLenBody < rs.length + req.text.length - req.len) :
    (spliceText cfg st req).msgs =
      [Msg.splice st.post.id req.start (rs.length - req.start)
        ((req.text ++ rs.drop (req.start + req.len)).take
          (cfg.maxLenBody - req.start))] ∧
    decodeList (spliceText cfg st req).st.post.body =
      (rs.take req.start ++ req.text ++
        rs.drop (req.start + req.len)).take cfg.maxLenBody ∧
    (spliceText cfg st req).st.post.len = (cfg.maxLenBody : Int) := by
  rcases spliceText_cases cfg st req with ⟨_, _, h0 | herr⟩ |
    ⟨_, _, hs, _, hsl, _, _, _, heq⟩
  · exact absurd h0 hid
  · exact absurd he herr
  · have hsl' : req.start + req.len ≤ rs.length := by
      rw [hl] at hsl
      exact_mod_cast hsl
    obtain ⟨h1, h2, _, _, _, _, _, _, hmsg⟩ :=
      spliceMut_spec cfg st req rs hb hl hs hsl'
    rw [heq] at he ⊢
    refine ⟨?_, ?_, ?_⟩
    · rw [hmsg he, if_neg (by omega)]
    · rw [h1, decodeList_encodeList]
    · rw [h2]
      have hlen : ((rs.take req.start ++ req.text ++
          rs.drop (req.start + req.len)).take cfg.maxLenBody).length =
          cfg.maxLenBody := by
        simp only [List.length_take, List.length_append, List.length_drop]
        omega
      rw [hlen]

/-- C5 (amended, witness): the boundary scenario at MaxBodyLen = 10: body of
8 runes, splice(0, 0, 10-rune text); the broadcast has len = 8 and the whole
submitted text, and the body becomes exactly the submitted text. -/
theorem C5_amended_witness :
    (spliceText cfgS (mkOpen "abcdefgh") ⟨0, 0, "0123456789".data⟩).msgs =
      [Msg.splice (mkOpen "abcdefgh").post.id 0 8 "0123456789".data] ∧
    decodeList (spliceText cfgS (mkOpen "abcdefgh")
      ⟨0, 0, "0123456789".data⟩).st.post.body = "0123456789".data ∧
    (spliceText cfgS (mkOpen "abcdefgh")
      ⟨0, 0, "0123456789".data⟩).st.post.len = 10 := by
  have h := C5_amended cfgS (mkOpen "abcdefgh") ⟨0, 0, "0123456789".data⟩
    "abcdefgh".data rfl rfl (by decide) (by decide) (by decide)
  exact ⟨h.1.trans (by decide), h.2.1.trans (by decide),
    h.2.2.trans (by decide)⟩

/-- C9: whenever `appendRune r` succeeds on an OpenPost (any state with a
non-negative rune length), a subsequent `backspace` succeeds and restores
body, len and lines exactly — the spam score excepted.  The statement is
parametric in the rune, so it covers multi-byte UTF-8 runes. -/
theorem C9_append_backspace (cfg : Cfg) (st : ClientState) (ch : Char)
    (hpr : isPrintable ch true = true) (hpos : 0 ≤ st.post.len)
    (he : (appendRune cfg st ch).err = none) :
    (backspace cfg (appendRune cfg st ch).st).err = none ∧
    (backspace cfg (appendRune cfg st ch).st).st.post.body = st.post.body ∧
    (backspace cfg (appendRune cfg st ch).st).st.post.len = st.post.len ∧
    (backspace cfg (appendRune cfg st ch).st).st.post.lines =
      st.post.lines := by
  rcases appendRune_cases cfg st ch with ⟨_, _, h0 | herr⟩ |
    ⟨_, herr, _, _⟩ | ⟨hid, _, _, _, _, heq⟩
  · exfalso
    have hx : (appendRune cfg st ch).err = some WsErr.noPostOpen := by
      have hhp : hasPost st = (false, some WsErr.noPostOpen) := by
        simp [hasPost, h0]
      simp [appendRune, hhp]
    rw [hx] at he
    cases he
  · exact absurd he herr
  · rw [herr] at he
    cases he
  · have hb1 : (appendRune cfg st ch).st.post.body =
        st.post.body ++ encodeChar ch := by rw [heq]
    have hid1 : (appendRune cfg st ch).st.post.id ≠ 0 := by
      rw [heq]
      exact hid
    have hlen1 : (appendRune cfg st ch).st.post.len ≠ 0 := by
      rw [heq]
      show st.post.len + 1 ≠ 0
      omega
    rw [backspace_spec cfg (appendRune cfg st ch).st st.post.body ch
      hb1 hid1 hlen1]
    refine ⟨rfl, rfl, ?_, ?_⟩
    · show (appendRune cfg st ch).st.post.len - 1 = st.post.len
      rw [heq]
      show st.post.len + 1 - 1 = st.post.len
      omega
    · show (if ch = '\n' then (appendRune cfg st ch).st.post.lines - 1
          else (appendRune cfg st ch).st.post.lines) = st.post.lines
      rw [heq]
      by_cases hc : ch = '\n' <;> simp [hc]

/-- C9 (witness): the round trip at a concrete open post with the 3-byte
UTF-8 rune '語'. -/
theorem C9_append_backspace_witness :
    utf8Len '語' = 3 ∧
    ((backspace cfgT (appendRune cfgT (mkOpen "ab") '語').st).err = none ∧
    (backspace cfgT (appendRune cfgT (mkOpen "ab") '語').st).st.post.body =
      (mkOpen "ab").post.body ∧
    (backspace cfgT (appendRune cfgT (mkOpen "ab") '語').st).st.post.len =
      (mkOpen "ab").post.len ∧
    (backspace cfgT (appendRune cfgT (mkOpen "ab") '語').st).st.post.lines =
      (mkOpen "ab").post.lines) :=
  ⟨by decide, C9_append_backspace cfgT (mkOpen "ab") '語' (by decide)
    (by decide) (by decide)⟩

end Shamichan
